import Mathlib

/-!
Verification development for the direct2url repository: a client-side upload
orchestrator (`src/client/components/CloudUploader.tsx`) that fetches files
from user-supplied URLs and forwards them to a cloud object store using
short-lived write credentials issued by three server-side broker routes
(S3 / GCP / Azure).

The TypeScript source is shallowly embedded below.  JavaScript strings are
modelled as Lean `String`s (lists of characters), JS string truthiness as
non-emptiness, optional request fields as strings where `""` means absent
(which is exactly how JS truthiness treats them in the source), and the
stateful sequential upload loop as an explicit trace of list-of-item states
produced by a list of update events.
-/

namespace Direct2Url

/-! ## Client-side input sanitization (`CloudUploader.tsx`) -/

/-- The character class `[a-zA-Z0-9._-]` of the sanitization regex.
`Char.isAlphanum` is exactly the ASCII ranges `a-z`, `A-Z`, `0-9`. -/
def allowedChar (c : Char) : Bool :=
  c.isAlphanum || c = '.' || c = '_' || c = '-'

/-- `fileName.replace(/[^a-zA-Z0-9._-]/g, '_')` on the character list. -/
def replaceDisallowed (l : List Char) : List Char :=
  l.map (fun c => if allowedChar c then c else '_')

/-- `.replace(/_{2,}/g, '_')`: each maximal run of two or more underscores is
collapsed to a single underscore; implemented by dropping the first of every
adjacent pair of underscores. -/
def collapseU : List Char → List Char
  | [] => []
  | [c] => [c]
  | a :: b :: rest =>
      if a = '_' && b = '_' then collapseU (b :: rest)
      else a :: collapseU (b :: rest)

/-- `sanitizeFileName` from `CloudUploader.tsx` lines 98-103:
replace every character outside `[a-zA-Z0-9._-]` with `_`, collapse runs of
`_`, then `.substring(0, 255)`. -/
def sanitizeFileName (s : String) : String :=
  String.mk ((collapseU (replaceDisallowed s.data)).take 255)

/-- `String.trim` on the character list: drop whitespace from both ends
(the whitespace class of JS `trim` restricted to the characters that occur
in this embedding). -/
def trimChars (l : List Char) : List Char :=
  ((l.dropWhile Char.isWhitespace).reverse.dropWhile Char.isWhitespace).reverse

/-- `sanitizeUrl` from `CloudUploader.tsx` lines 85-87:
`url.trim().replace(/[<>'"]/g, '')`.  The four stripped characters are
written by code point (60 `<`, 62 `>`, 39 apostrophe, 34 double quote). -/
def sanitizeUrl (url : String) : String :=
  String.mk ((trimChars url.data).filter
    (fun c => !(c = Char.ofNat 60 || c = Char.ofNat 62 ||
                c = Char.ofNat 39 || c = Char.ofNat 34)))

/-- Does the first list begin with the second one? -/
def beginsWith : List Char → List Char → Bool
  | _, [] => true
  | [], _ :: _ => false
  | c :: cs, p :: ps => c = p && beginsWith cs ps

/-- Modelled from the spec: the platform `URL` constructor check in
`isValidUrl` (`CloudUploader.tsx` lines 89-96) is a browser built-in, not
repository code; the spec says a candidate is kept when it "parses as an
absolute URL with scheme `http` or `https`".  We model this as: the string
starts with `http://` or `https://` and has a non-empty remainder. -/
def isValidUrl (url : String) : Bool :=
  (beginsWith url.data "http://".data && url.data.length > 7) ||
  (beginsWith url.data "https://".data && url.data.length > 8)

/-- The separator class of the split regex `[,\n\r]+`. -/
def isSep (c : Char) : Bool := c = ',' || c = '\n' || c = '\r'

/-- Split a character list at every separator character (the semantics of
`string.split` on a character class, keeping empty pieces). -/
def splitChars (p : Char → Bool) : List Char → List (List Char)
  | [] => [[]]
  | c :: rest =>
      let r := splitChars p rest
      if p c then [] :: r
      else
        match r with
        | [] => [[c]]
        | g :: gs => (c :: g) :: gs

/-- `parseUrls` from `CloudUploader.tsx` lines 105-110:
`input.split(/[,\n\r]+/).map(sanitizeUrl).filter(url => url && isValidUrl(url))`.
Splitting at every single separator instead of at maximal separator runs
(the `+` in the JS regex) only adds empty candidates, and those are removed
by the `url &&` (non-emptiness) clause of the filter in either case, so the
composed functions agree. -/
def parseUrls (input : String) : List String :=
  (((splitChars isSep input.data).map String.mk).map sanitizeUrl).filter
    (fun url => !url.isEmpty && isValidUrl url)

/-! ## Configuration store (`CloudUploader.tsx`) -/

structure S3Config where
  bucket : String
  region : String
  accessKeyId : String
  secretAccessKey : String
  sessionToken : String
  endpoint : String
deriving DecidableEq, Repr

structure GCPConfig where
  bucket : String
  projectId : String
  keyFile : String
deriving DecidableEq, Repr

structure AzureConfig where
  accountName : String
  containerName : String
  accountKey : String
  sasToken : String
deriving DecidableEq, Repr

inductive Provider | s3 | gcp | azure
deriving DecidableEq, Repr

/-- `CloudConfig` from `CloudUploader.tsx` lines 26-31: the provider tag plus
one optional config record per provider (`undefined` modelled as `none`). -/
structure CloudConfig where
  provider : Provider
  s3 : Option S3Config
  gcp : Option GCPConfig
  azure : Option AzureConfig
deriving DecidableEq, Repr

/-- `isCloudConfigured` from `CloudUploader.tsx` lines 330-345.  JS string
truthiness (`!!s`) is non-emptiness; the optional-chaining `config?.f` on a
missing config yields `undefined`, hence `false`. -/
def isCloudConfigured (c : CloudConfig) : Bool :=
  match c.provider with
  | .s3 =>
      match c.s3 with
      | some s => !s.bucket.isEmpty && !s.accessKeyId.isEmpty &&
                  !s.secretAccessKey.isEmpty
      | none => false
  | .gcp =>
      match c.gcp with
      | some g => !g.bucket.isEmpty && !g.projectId.isEmpty &&
                  !g.keyFile.isEmpty
      | none => false
  | .azure =>
      match c.azure with
      | some a => !a.accountName.isEmpty && !a.containerName.isEmpty &&
                  (!a.accountKey.isEmpty || !a.sasToken.isEmpty)
      | none => false

/-- The configuration predicate as the claim states it (the claim's field
list for the iff; used only to compare with `isCloudConfigured`): S3
additionally requires a non-empty `region`. -/
def claimedConfigured (c : CloudConfig) : Bool :=
  match c.provider with
  | .s3 =>
      match c.s3 with
      | some s => !s.bucket.isEmpty && !s.region.isEmpty &&
                  !s.accessKeyId.isEmpty && !s.secretAccessKey.isEmpty
      | none => false
  | .gcp =>
      match c.gcp with
      | some g => !g.bucket.isEmpty && !g.projectId.isEmpty &&
                  !g.keyFile.isEmpty
      | none => false
  | .azure =>
      match c.azure with
      | some a => !a.accountName.isEmpty && !a.containerName.isEmpty &&
                  (!a.accountKey.isEmpty || !a.sasToken.isEmpty)
      | none => false

/-! ## Upload items and aggregate progress (`CloudUploader.tsx`) -/

inductive Status | pending | uploading | success | error
deriving DecidableEq, Repr

/-- `UploadItem` from `CloudUploader.tsx` lines 33-40. -/
structure Item where
  id : Nat
  url : String
  status : Status
  progress : Nat
  errorMsg : Option String
  fileName : Option String
deriving DecidableEq, Repr

/-- Sum of the items' progress fields: the `reduce` accumulator in
`getOverallProgress`. -/
def progressSum (items : List Item) : Nat :=
  (items.map (fun it => it.progress)).sum

/-- JavaScript `Math.round` (ties round toward positive infinity). -/
def jsRound (q : ℚ) : ℤ := Int.floor (q + 1/2)

/-- `getOverallProgress` from `CloudUploader.tsx` lines 357-361:
`0` for an empty list, otherwise `Math.round(total / items.length)`. -/
def getOverallProgress (items : List Item) : ℤ :=
  if items.length = 0 then 0
  else jsRound ((progressSum items : ℚ) / (items.length : ℚ))

/-! ## The sequential batch orchestrator (`CloudUploader.tsx`)

`handleBulkUpload` (lines 271-290) and `handleFileUpload` (lines 292-321)
create one pending item per parsed URL and then run
`for (const item of items) await processUpload(item)` — strictly one item at
a time.  Every mutation of the shared item list in `processUpload` and
`uploadFileToCloud` has the shape
`items.map(i => i.id === targetId ? changedFields(i) : i)`, so the shared
state evolves by a sequence of id-targeted update events.  We embed each
such `setUploadState` call as an `Upd` value, `processUpload` as the list
of events it emits (driven by the outcomes of its three network calls,
supplied as an `ItemEnv` oracle), and the whole batch as the trace of
intermediate shared states (`List.scanl`). -/

/-- One `setUploadState` event.  The four shapes that occur in the source:
mark uploading with progress 0 (line 214), set progress (line 173), mark
success with progress 100 (line 235), mark error with progress 0 and a
message (lines 242-247). -/
inductive Upd
  | start (id : Nat)
  | prog (id : Nat) (p : Nat)
  | fail (id : Nat) (msg : String)
  | succeed (id : Nat)
deriving DecidableEq, Repr

def Upd.targetId : Upd → Nat
  | .start n => n
  | .prog n _ => n
  | .fail n _ => n
  | .succeed n => n

/-- Effect of one event on one item: the `i.id === itemId ? {...i, ...} : i`
branch of the `items.map` in each `setUploadState` call. -/
def updItem (it : Item) (u : Upd) : Item :=
  if u.targetId = it.id then
    match u with
    | .start _ => { it with status := .uploading, progress := 0 }
    | .prog _ p => { it with progress := p }
    | .fail _ m => { it with status := .error, progress := 0, errorMsg := some m }
    | .succeed _ => { it with status := .success, progress := 100 }
  else it

/-- Effect of one event on the shared item list: the `items.map` itself. -/
def applyUpd (items : List Item) (u : Upd) : List Item :=
  items.map (fun it => updItem it u)

/-- Outcome oracle for the three network calls of one item's
`processUpload`: whether the source fetch succeeds, whether the credential
broker call succeeds, the progress percentages reported by the upload's
progress events, and the upload outcome (`none` = network error, `some s` =
final HTTP status `s`). -/
structure ItemEnv where
  fetchOk : Bool
  brokerOk : Bool
  progressEvents : List Nat
  uploadResult : Option Nat
deriving DecidableEq, Repr

/-- The events `processUpload` (lines 209-251) emits for the item with id
`n` under oracle `env`: mark uploading; on fetch failure or broker failure,
the thrown error reaches the catch block which marks the item failed; else
the upload's progress events fire, and the final status resolves to success
exactly for 200 or 201 (lines 179-189), any other outcome again reaching
the catch block. -/
def perItemUpds (n : Nat) (env : ItemEnv) : List Upd :=
  Upd.start n ::
    (if env.fetchOk = false then [Upd.fail n "Fetch failed"]
     else if env.brokerOk = false then [Upd.fail n "Failed to get signed URL"]
     else (env.progressEvents.map (Upd.prog n)) ++
       [match env.uploadResult with
        | some s => if s = 200 || s = 201 then Upd.succeed n
                    else Upd.fail n "Upload failed"
        | none => Upd.fail n "Network error"])

/-- Final state of one item after its own `processUpload` completes. -/
def finalItem (it : Item) (env : ItemEnv) : Item :=
  (perItemUpds it.id env).foldl updItem it

/-- Item creation in `handleBulkUpload`/`handleFileUpload` (lines 275-280,
304-309): one pending item with progress 0 per URL, ids distinct (the source
uses `Date.now() + '-' + index`; we keep the distinguishing index `k`). -/
def mkItemsFrom (k : Nat) : List String → List Item
  | [] => []
  | u :: us =>
      { id := k, url := u, status := .pending, progress := 0,
        errorMsg := none, fileName := none } :: mkItemsFrom (k + 1) us

/-- The items of a fresh batch: indices starting at 0. -/
def mkItems (urls : List String) : List Item := mkItemsFrom 0 urls

/-- All events of a batch: the `for (const item of items)` loop emits each
item's events in input order, one item finishing before the next starts. -/
def batchUpds (items : List Item) (envs : List ItemEnv) : List Upd :=
  (items.zip envs).flatMap (fun p => perItemUpds p.1.id p.2)

/-- The trace of shared states of a batch run: the initial all-pending list
followed by the state after each `setUploadState` event. -/
def batchStates (items : List Item) (envs : List ItemEnv) : List (List Item) :=
  List.scanl applyUpd items (batchUpds items envs)

/-- Final shared state of a batch run. -/
def batchFinal (items : List Item) (envs : List ItemEnv) : List Item :=
  (batchUpds items envs).foldl applyUpd items

/-- `handleBulkUpload` (lines 271-290) as a trace: parse the raw text, build
the pending items, run them sequentially. -/
def handleBulkUpload (raw : String) (envs : List ItemEnv) : List (List Item) :=
  batchStates (mkItems (parseUrls raw)) envs

/-- `handleFileUpload` (lines 292-321) applies the same parsing and the same
sequential loop to the chosen file's text content. -/
def handleFileUpload (fileText : String) (envs : List ItemEnv) : List (List Item) :=
  batchStates (mkItems (parseUrls fileText)) envs

/-- Terminal per-item states. -/
def isTerminal (it : Item) : Prop := it.status = .success ∨ it.status = .error

instance (it : Item) : Decidable (isTerminal it) := by
  unfold isTerminal; infer_instance

/-! ## Server-side credential broker routes

Embedded from the elaborated route variants the claims cite
(`src/unnamed/part_000` for GCP, `src/unnamed/part_001` for Azure and S3;
the repository also carries older, simpler variants of the same routes under
`src/src/server/routes/`, noted where they differ).  Request fields follow
JS truthiness: an optional field that is absent or the empty string is
falsy, so optional strings are modelled as strings with `""` meaning
absent — exactly how the zod `refine` and the `if (config.accountKey)`
branches treat them.  The cloud SDKs are external collaborators; a signing
call is recorded as a structured result value plus a count of signing
attempts, and its possible downstream failure is an oracle `sdkOk`. -/

/-- Body of a `POST /api/azure-sas-url` request. -/
structure AzureReq where
  fileName : String
  fileType : String
  accountName : String
  containerName : String
  accountKey : String
  sasToken : String
deriving DecidableEq, Repr

/-- The zod schema `azureRequestSchema` of `part_001`: `fileName` non-empty
and at most 255 characters, `fileType` non-empty, `accountName` and
`containerName` non-empty, and the `refine` requiring `accountKey` or
`sasToken` to be truthy. -/
def azureValid (r : AzureReq) : Bool :=
  !r.fileName.isEmpty && r.fileName.data.length ≤ 255 &&
  !r.fileType.isEmpty && !r.accountName.isEmpty && !r.containerName.isEmpty &&
  (!r.accountKey.isEmpty || !r.sasToken.isEmpty)

/-- Result of the Azure route.  `newSas` records the parameters of a freshly
generated SAS (`generateBlobSASQueryParameters`): container, blob,
permission string, start and expiry instants in milliseconds.  `reusedToken`
records that the pre-issued token was appended to the blob URL unchanged
with no signing.  `validationError` is the 400 `VALIDATION_ERROR` envelope,
`azureError` the 500 `AZURE_ERROR` envelope. -/
inductive AzureResult
  | newSas (container blob perms : String) (startMs expireMs : Nat)
  | reusedToken (account container blob token : String)
  | validationError
  | azureError
deriving DecidableEq, Repr

/-- The `azureRoutes` handler of `part_001` lines 23-110, as a function of
the request, the current time `now` (milliseconds), and the SDK oracle.
Returns the result together with the number of signing attempts made.
Validation failure returns before anything else; an `accountKey` (checked
first, so it takes precedence) leads to a shared-key credential and a fresh
write-only SAS with `startsOn: new Date()` and
`expiresOn: now + 60 * 60 * 1000`; otherwise a truthy `sasToken` is reused
directly against the blob URL; the final `else` throw is unreachable under
the `refine` but is translated faithfully (a thrown non-zod error yields the
500 `AZURE_ERROR` envelope). -/
def azureRoutes (now : Nat) (r : AzureReq) (sdkOk : Bool) : AzureResult × Nat :=
  if !azureValid r then (.validationError, 0)
  else if !r.accountKey.isEmpty then
    if sdkOk then
      (.newSas r.containerName r.fileName "w" now (now + 60 * 60 * 1000), 1)
    else (.azureError, 1)
  else if !r.sasToken.isEmpty then
    (.reusedToken r.accountName r.containerName r.fileName r.sasToken, 0)
  else (.azureError, 0)

/-- HTTP status and error-envelope code of each Azure result. -/
def azureHttp : AzureResult → Nat × String
  | .newSas _ _ _ _ _ => (200, "OK")
  | .reusedToken _ _ _ _ => (200, "OK")
  | .validationError => (400, "VALIDATION_ERROR")
  | .azureError => (500, "AZURE_ERROR")

/-- Body of a `POST /api/gcp-signed-url` request. -/
structure GcpReq where
  fileName : String
  fileType : String
  bucket : String
  projectId : String
  keyFile : String
deriving DecidableEq, Repr

/-- The zod schema `gcpRequestSchema` of `part_000`. -/
def gcpValid (r : GcpReq) : Bool :=
  !r.fileName.isEmpty && r.fileName.data.length ≤ 255 &&
  !r.fileType.isEmpty && !r.bucket.isEmpty && !r.projectId.isEmpty &&
  !r.keyFile.isEmpty

/-- Result of the GCP route: a v4 write-scoped signed URL with its
parameters, or one of the error envelopes (`validationError` = 400
`VALIDATION_ERROR`, `invalidCredentials` = 400 `INVALID_CREDENTIALS`,
`gcpError` = 500 `GCP_ERROR`). -/
inductive GcpResult
  | signed (bucket object contentType version action : String) (expireMs : Nat)
  | validationError
  | invalidCredentials
  | gcpError
deriving DecidableEq, Repr

/-- The `gcpRoutes` handler of `part_000` lines 30-110: zod validation
first; then `JSON.parse(config.keyFile)` (a platform call, oracle
`keyParses`) whose failure returns the 400 `INVALID_CREDENTIALS` envelope
before any client is constructed; then the SDK signing call (`version: v4`,
`action: write`, `expires: now + 60 * 60 * 1000`), whose failure yields the
500 `GCP_ERROR` envelope.  Returns the result with the signing-attempt
count. -/
def gcpRoutes (now : Nat) (r : GcpReq) (keyParses sdkOk : Bool) :
    GcpResult × Nat :=
  if !gcpValid r then (.validationError, 0)
  else if !keyParses then (.invalidCredentials, 0)
  else if sdkOk then
    (.signed r.bucket r.fileName r.fileType "v4" "write"
      (now + 60 * 60 * 1000), 1)
  else (.gcpError, 1)

/-- HTTP status and error-envelope code of each GCP result. -/
def gcpHttp : GcpResult → Nat × String
  | .signed _ _ _ _ _ _ => (200, "OK")
  | .validationError => (400, "VALIDATION_ERROR")
  | .invalidCredentials => (400, "INVALID_CREDENTIALS")
  | .gcpError => (500, "GCP_ERROR")

/-- Body of a `POST /api/s3-presigned-url` request. -/
structure S3Req where
  fileName : String
  fileType : String
  bucket : String
  region : String
  accessKeyId : String
  secretAccessKey : String
  sessionToken : String
  endpoint : String
deriving DecidableEq, Repr

/-- The zod schema `s3RequestSchema` of `part_001` (`sessionToken` and
`endpoint` optional). -/
def s3Valid (r : S3Req) : Bool :=
  !r.fileName.isEmpty && r.fileName.data.length ≤ 255 &&
  !r.fileType.isEmpty && !r.bucket.isEmpty && !r.region.isEmpty &&
  !r.accessKeyId.isEmpty && !r.secretAccessKey.isEmpty

/-- Result of the S3 route: a presigned `PutObject` URL with its parameters
(`expiresIn` in seconds), or an error envelope (`validationError` = 400
`VALIDATION_ERROR`, `s3Error` = 500 `S3_ERROR`). -/
inductive S3Result
  | signed (bucket key contentType : String) (expiresInSeconds : Nat)
  | validationError
  | s3Error
deriving DecidableEq, Repr

/-- The `s3Routes` handler of `part_001`: zod validation first, then one
`getSignedUrl` call with `expiresIn: 3600`; an SDK failure yields the 500
`S3_ERROR` envelope.  Returns the result with the signing-attempt count. -/
def s3Routes (r : S3Req) (sdkOk : Bool) : S3Result × Nat :=
  if !s3Valid r then (.validationError, 0)
  else if sdkOk then (.signed r.bucket r.fileName r.fileType 3600, 1)
  else (.s3Error, 1)

/-- HTTP status and error-envelope code of each S3 result. -/
def s3Http : S3Result → Nat × String
  | .signed _ _ _ _ => (200, "OK")
  | .validationError => (400, "VALIDATION_ERROR")
  | .s3Error => (500, "S3_ERROR")

/-! ## Lemmas about file-name sanitization -/

/-- No two adjacent underscores. -/
def NoRun (l : List Char) : Prop :=
  l.Chain' (fun a b => ¬(a = '_' ∧ b = '_'))

lemma mem_replaceDisallowed {c : Char} {l : List Char}
    (h : c ∈ replaceDisallowed l) : allowedChar c = true := by
  simp only [replaceDisallowed, List.mem_map] at h
  obtain ⟨a, -, ha⟩ := h
  by_cases hall : allowedChar a <;> simp [hall] at ha <;> subst ha
  · exact hall
  · rfl

lemma replaceDisallowed_id {l : List Char}
    (h : ∀ c ∈ l, allowedChar c = true) : replaceDisallowed l = l := by
  simp only [replaceDisallowed]
  calc l.map (fun c => if allowedChar c then c else '_')
      = l.map id := List.map_congr_left fun c hc => by simp [h c hc]
    _ = l := List.map_id l

lemma collapseU_cons (x : Char) (xs : List Char) :
    ∃ ys, collapseU (x :: xs) = x :: ys := by
  induction xs generalizing x with
  | nil => exact ⟨[], rfl⟩
  | cons b rest ih =>
    by_cases h : x = '_' ∧ b = '_'
    · obtain ⟨ys, hys⟩ := ih b
      refine ⟨ys, ?_⟩
      rw [show collapseU (x :: b :: rest) = collapseU (b :: rest) by
        simp [collapseU, h.1, h.2]]
      rw [hys, h.1, h.2]
    · refine ⟨collapseU (b :: rest), ?_⟩
      have : ¬(x = '_' && b = '_') = true := by
        simpa [Bool.and_eq_true, decide_eq_true_iff] using h
      simp [collapseU, this]

lemma collapseU_noRun (l : List Char) : NoRun (collapseU l) := by
  induction l with
  | nil => exact List.chain'_nil
  | cons a rest ih =>
    match rest, ih with
    | [], _ => exact List.chain'_singleton a
    | b :: rest', ih =>
      by_cases h : a = '_' ∧ b = '_'
      · rw [show collapseU (a :: b :: rest') = collapseU (b :: rest') by
          simp [collapseU, h.1, h.2]]
        exact ih
      · have hb : ¬(a = '_' && b = '_') = true := by
          simpa [Bool.and_eq_true, decide_eq_true_iff] using h
        rw [show collapseU (a :: b :: rest') = a :: collapseU (b :: rest') by
          simp [collapseU, hb]]
        obtain ⟨ys, hys⟩ := collapseU_cons b rest'
        rw [hys]
        exact List.chain'_cons.mpr ⟨h, hys ▸ ih⟩

lemma collapseU_id {l : List Char} (h : NoRun l) : collapseU l = l := by
  induction l with
  | nil => rfl
  | cons a rest ih =>
    match rest, h with
    | [], _ => rfl
    | b :: rest', h =>
      obtain ⟨hab, htail⟩ := List.chain'_cons.mp h
      have hb : ¬(a = '_' && b = '_') = true := by
        simpa [Bool.and_eq_true, decide_eq_true_iff] using hab
      rw [show collapseU (a :: b :: rest') = a :: collapseU (b :: rest') by
        simp [collapseU, hb]]
      rw [ih htail]

lemma mem_collapseU {c : Char} : ∀ {l : List Char}, c ∈ collapseU l → c ∈ l
  | [], h => by simp [collapseU] at h
  | [a], h => by simp [collapseU] at h; simp [h]
  | a :: b :: rest, h => by
    by_cases hab : (a = '_' && b = '_') = true
    · rw [show collapseU (a :: b :: rest) = collapseU (b :: rest) by
        simp [collapseU, hab]] at h
      exact List.mem_cons_of_mem a (mem_collapseU h)
    · rw [show collapseU (a :: b :: rest) = a :: collapseU (b :: rest) by
        simp [collapseU, hab]] at h
      rcases List.mem_cons.mp h with h | h
      · exact h ▸ List.mem_cons_self a _
      · exact List.mem_cons_of_mem a (mem_collapseU h)

/-- The character list underlying `sanitizeFileName`. -/
lemma sanitizeFileName_data (s : String) :
    (sanitizeFileName s).data = (collapseU (replaceDisallowed s.data)).take 255 :=
  rfl

lemma sanitizeFileName_allowed {s : String} {c : Char}
    (h : c ∈ (sanitizeFileName s).data) : allowedChar c = true :=
  mem_replaceDisallowed (mem_collapseU (List.mem_of_mem_take h))

lemma sanitizeFileName_noRun (s : String) : NoRun (sanitizeFileName s).data := by
  rw [sanitizeFileName_data]
  exact (collapseU_noRun _).take 255

lemma sanitizeFileName_len (s : String) : (sanitizeFileName s).data.length ≤ 255 := by
  rw [sanitizeFileName_data]
  simp

lemma string_mk_data (s : String) : String.mk s.data = s := rfl

/-- C4: for every input string, `sanitizeFileName` (replace characters
outside `[A-Za-z0-9._-]` with `_`, collapse runs of `_`, truncate to 255) is
idempotent, its output has length at most 255, and every output character is
in `[A-Za-z0-9._-]`. -/
theorem c4_sanitize_idempotent_bounded (s : String) :
    sanitizeFileName (sanitizeFileName s) = sanitizeFileName s ∧
    (sanitizeFileName s).data.length ≤ 255 ∧
    ∀ c ∈ (sanitizeFileName s).data, allowedChar c = true := by
  refine ⟨?_, sanitizeFileName_len s, fun c hc => sanitizeFileName_allowed hc⟩
  have hrep : replaceDisallowed (sanitizeFileName s).data =
      (sanitizeFileName s).data :=
    replaceDisallowed_id fun c hc => sanitizeFileName_allowed hc
  have hcol : collapseU (sanitizeFileName s).data = (sanitizeFileName s).data :=
    collapseU_id (sanitizeFileName_noRun s)
  have htake : ((sanitizeFileName s).data).take 255 = (sanitizeFileName s).data :=
    List.take_of_length_le (sanitizeFileName_len s)
  calc sanitizeFileName (sanitizeFileName s)
      = String.mk ((collapseU (replaceDisallowed (sanitizeFileName s).data)).take 255) := rfl
    _ = String.mk (sanitizeFileName s).data := by rw [hrep, hcol, htake]
    _ = sanitizeFileName s := string_mk_data _

/-- Witness for C4 at the concrete input `"a b!!c__d.pdf"`. -/
theorem c4_sanitize_idempotent_bounded_witness :
    sanitizeFileName (sanitizeFileName "a b!!c__d.pdf") =
      sanitizeFileName "a b!!c__d.pdf" ∧
    (sanitizeFileName "a b!!c__d.pdf").data.length ≤ 255 ∧
    allowedChar 'a' = true :=
  ⟨(c4_sanitize_idempotent_bounded "a b!!c__d.pdf").1,
   (c4_sanitize_idempotent_bounded "a b!!c__d.pdf").2.1,
   (c4_sanitize_idempotent_bounded "a b!!c__d.pdf").2.2 'a' (by decide)⟩

/-- C5: URL intake splits the raw text at `,`/newline characters and maps
each candidate through `sanitizeUrl` (trim, then strip the characters `<`,
`>`, apostrophe, double quote); every kept entry is a member of that
split-and-sanitized candidate list, is non-empty, and passes the
`http`/`https` absolute-URL check, and the bulk input
`"https://x.com/f1.jpg,not-a-url,https://x.com/f2.png"` yields exactly the
two well-formed URLs, the malformed candidate being dropped silently. -/
theorem c5_parse_urls_filter :
    (∀ input : String, ∀ u ∈ parseUrls input,
        u ∈ ((splitChars isSep input.data).map String.mk).map sanitizeUrl ∧
        u ≠ "" ∧ isValidUrl u = true) ∧
    parseUrls "https://x.com/f1.jpg,not-a-url,https://x.com/f2.png" =
      ["https://x.com/f1.jpg", "https://x.com/f2.png"] := by
  constructor
  · intro input u hu
    have h1 := List.mem_of_mem_filter hu
    have h2 := List.of_mem_filter hu
    simp only [Bool.and_eq_true] at h2
    refine ⟨h1, ?_, h2.2⟩
    intro he
    rw [he] at h2
    simp [String.isEmpty] at h2
  · decide

/-- Witness for C5: the first kept entry of the scenario input is a member
of the sanitized candidate list, non-empty, and scheme-valid. -/
theorem c5_parse_urls_filter_witness :
    "https://x.com/f1.jpg" ∈
        ((splitChars isSep
            ("https://x.com/f1.jpg,not-a-url,https://x.com/f2.png" : String).data).map
          String.mk).map sanitizeUrl ∧
      "https://x.com/f1.jpg" ≠ "" ∧
      isValidUrl "https://x.com/f1.jpg" = true :=
  c5_parse_urls_filter.1 "https://x.com/f1.jpg,not-a-url,https://x.com/f2.png"
    "https://x.com/f1.jpg" (by decide)

lemma not_isEmpty_iff (s : String) : (!s.isEmpty) = true ↔ s ≠ "" := by
  rw [Bool.not_eq_true', ← Bool.not_eq_true, not_iff_not]
  exact String.isEmpty_iff s

lemma isEmpty_false_of_ne {s : String} (h : s ≠ "") : s.isEmpty = false := by
  cases hs : s.isEmpty
  · rfl
  · exact absurd ((String.isEmpty_iff s).mp hs) h

lemma empty_isEmpty : ("" : String).isEmpty = true := rfl

/-- C9 counterexample: with the S3 variant active, a configuration whose
`region` is empty but whose bucket, access key id and secret access key are
non-empty is reported as configured by `isCloudConfigured`, while the
claim's required-field predicate (which includes `region` for S3) rejects
it — so the claimed if-and-only-if fails at this input. -/
theorem c9_region_counterexample :
    isCloudConfigured
        ⟨.s3, some ⟨"my-bucket", "", "AKIA", "secret", "", ""⟩, none, none⟩ = true ∧
    claimedConfigured
        ⟨.s3, some ⟨"my-bucket", "", "AKIA", "secret", "", ""⟩, none, none⟩ = false := by
  decide

/-- C9 amended: `isCloudConfigured` returns true if and only if every
checked field of the active provider's variant is non-empty — S3 requires
bucket, access key id and secret access key (the region is NOT checked);
GCP requires bucket, project id and key file; Azure requires account name,
container name and at least one of account key or SAS token. -/
theorem c9_amended_configured_iff (c : CloudConfig) :
    (c.provider = .s3 →
      (isCloudConfigured c = true ↔ ∃ s, c.s3 = some s ∧
        s.bucket ≠ "" ∧ s.accessKeyId ≠ "" ∧ s.secretAccessKey ≠ "")) ∧
    (c.provider = .gcp →
      (isCloudConfigured c = true ↔ ∃ g, c.gcp = some g ∧
        g.bucket ≠ "" ∧ g.projectId ≠ "" ∧ g.keyFile ≠ "")) ∧
    (c.provider = .azure →
      (isCloudConfigured c = true ↔ ∃ a, c.azure = some a ∧
        a.accountName ≠ "" ∧ a.containerName ≠ "" ∧
        (a.accountKey ≠ "" ∨ a.sasToken ≠ ""))) := by
  obtain ⟨p, s3c, gcpc, azurec⟩ := c
  refine ⟨fun hp => ?_, fun hp => ?_, fun hp => ?_⟩ <;> subst hp
  · cases s3c with
    | none => simp [isCloudConfigured]
    | some s =>
      simp only [isCloudConfigured, Bool.and_eq_true, not_isEmpty_iff,
        Option.some.injEq]
      constructor
      · rintro ⟨⟨h1, h2⟩, h3⟩; exact ⟨s, rfl, h1, h2, h3⟩
      · rintro ⟨s', hs', h1, h2, h3⟩; cases hs'; exact ⟨⟨h1, h2⟩, h3⟩
  · cases gcpc with
    | none => simp [isCloudConfigured]
    | some g =>
      simp only [isCloudConfigured, Bool.and_eq_true, not_isEmpty_iff,
        Option.some.injEq]
      constructor
      · rintro ⟨⟨h1, h2⟩, h3⟩; exact ⟨g, rfl, h1, h2, h3⟩
      · rintro ⟨g', hg', h1, h2, h3⟩; cases hg'; exact ⟨⟨h1, h2⟩, h3⟩
  · cases azurec with
    | none => simp [isCloudConfigured]
    | some a =>
      simp only [isCloudConfigured, Bool.and_eq_true, Bool.or_eq_true,
        not_isEmpty_iff, Option.some.injEq]
      constructor
      · rintro ⟨⟨h1, h2⟩, h3⟩; exact ⟨a, rfl, h1, h2, h3⟩
      · rintro ⟨a', ha', h1, h2, h3⟩; cases ha'; exact ⟨⟨h1, h2⟩, h3⟩

/-- Witness for the amended C9 at a fully populated S3 configuration. -/
theorem c9_amended_configured_iff_witness :
    isCloudConfigured
      ⟨.s3, some ⟨"my-bucket", "us-east-1", "AKIA", "secret", "", ""⟩,
        none, none⟩ = true :=
  ((c9_amended_configured_iff
      ⟨.s3, some ⟨"my-bucket", "us-east-1", "AKIA", "secret", "", ""⟩,
        none, none⟩).1 rfl).mpr
    ⟨⟨"my-bucket", "us-east-1", "AKIA", "secret", "", ""⟩, rfl,
      by decide, by decide, by decide⟩

lemma jsRound_close (q : ℚ) : |(jsRound q : ℚ) - q| ≤ 1/2 := by
  unfold jsRound
  have h1 : ((Int.floor (q + 1/2) : ℤ) : ℚ) ≤ q + 1/2 := Int.floor_le _
  have h2 : q + 1/2 < ((Int.floor (q + 1/2) : ℤ) : ℚ) + 1 := Int.lt_floor_add_one _
  rw [abs_le]
  constructor <;> linarith

/-- C8 counterexample: for a two-item batch with progress values 0 and 1 the
exposed aggregate is `Math.round(1/2) = 1`, not the arithmetic mean `1/2` —
so the aggregate does not equal the mean at this instant. -/
theorem c8_mean_counterexample :
    ((getOverallProgress
        [⟨0, "u", .uploading, 0, none, none⟩,
         ⟨1, "v", .uploading, 1, none, none⟩] : ℚ) ≠
      ((progressSum
          [⟨0, "u", .uploading, 0, none, none⟩,
           ⟨1, "v", .uploading, 1, none, none⟩] : ℚ) / 2)) := by
  norm_num [getOverallProgress, jsRound, progressSum]

/-- C8 amended: the aggregate progress is 0 when the batch is empty, and
otherwise equals the arithmetic mean of the items' progress values rounded
to the nearest integer (ties up, JS `Math.round`); in particular it is
always within 1/2 of the true mean. -/
theorem c8_amended_rounded_mean (items : List Item) :
    (items.length = 0 → getOverallProgress items = 0) ∧
    (items.length ≠ 0 →
      getOverallProgress items =
        jsRound ((progressSum items : ℚ) / (items.length : ℚ)) ∧
      |(getOverallProgress items : ℚ) -
        (progressSum items : ℚ) / (items.length : ℚ)| ≤ 1/2) := by
  constructor
  · intro h
    simp [getOverallProgress, h]
  · intro h
    have hg : getOverallProgress items =
        jsRound ((progressSum items : ℚ) / (items.length : ℚ)) := by
      simp [getOverallProgress, h]
    exact ⟨hg, hg ▸ jsRound_close _⟩

/-- Witness for the amended C8 at the two-item batch with progress 0 and 1:
the exposed value is the rounded mean and lies within 1/2 of the mean. -/
theorem c8_amended_rounded_mean_witness :
    getOverallProgress
        [⟨0, "u", .uploading, 0, none, none⟩,
         ⟨1, "v", .uploading, 1, none, none⟩] =
      jsRound ((progressSum
          [⟨0, "u", .uploading, 0, none, none⟩,
           ⟨1, "v", .uploading, 1, none, none⟩] : ℚ) / 2) ∧
    |(getOverallProgress
        [⟨0, "u", .uploading, 0, none, none⟩,
         ⟨1, "v", .uploading, 1, none, none⟩] : ℚ) -
      (progressSum
          [⟨0, "u", .uploading, 0, none, none⟩,
           ⟨1, "v", .uploading, 1, none, none⟩] : ℚ) / 2| ≤ 1/2 := by
  have h := (c8_amended_rounded_mean
    [⟨0, "u", .uploading, 0, none, none⟩,
     ⟨1, "v", .uploading, 1, none, none⟩]).2 (by decide)
  simpa using h

/-- C2: for every Azure broker request with valid field shapes — if an
account key is present the route generates a fresh write-only SAS for the
blob starting at `now` with a 3600000-millisecond (3600-second) expiry,
regardless of any supplied SAS token (account-key precedence); if only a
SAS token is present the route returns the blob URL with that token reused
and performs zero signing attempts; if neither is present the call fails
with the 400 `VALIDATION_ERROR` configuration error and zero signing
attempts. -/
theorem c2_azure_sas_issuance (now : Nat) (r : AzureReq) (sdkOk : Bool)
    (hname : r.fileName ≠ "") (hlen : r.fileName.data.length ≤ 255)
    (htype : r.fileType ≠ "") (hacct : r.accountName ≠ "")
    (hcont : r.containerName ≠ "") :
    (r.accountKey ≠ "" → sdkOk = true →
      azureRoutes now r sdkOk =
        (.newSas r.containerName r.fileName "w" now (now + 3600 * 1000), 1)) ∧
    (r.accountKey = "" → r.sasToken ≠ "" →
      azureRoutes now r sdkOk =
        (.reusedToken r.accountName r.containerName r.fileName r.sasToken, 0)) ∧
    (r.accountKey = "" → r.sasToken = "" →
      azureRoutes now r sdkOk = (.validationError, 0) ∧
      azureHttp (azureRoutes now r sdkOk).1 = (400, "VALIDATION_ERROR")) := by
  have hf := isEmpty_false_of_ne hname
  have ht := isEmpty_false_of_ne htype
  have ha := isEmpty_false_of_ne hacct
  have hc := isEmpty_false_of_ne hcont
  have hlen' : r.fileName.length ≤ 255 := hlen
  refine ⟨fun hk hsdk => ?_, fun hk hs => ?_, fun hk hs => ?_⟩
  · have hk' := isEmpty_false_of_ne hk
    have hv : azureValid r = true := by
      simp [azureValid, hf, ht, ha, hc, hk', hlen']
    simp [azureRoutes, hv, hk', hsdk]
  · have hs' := isEmpty_false_of_ne hs
    have hv : azureValid r = true := by
      simp [azureValid, hf, ht, ha, hc, hs', hlen']
    have hk' : r.accountKey.isEmpty = true := by rw [hk]; rfl
    simp [azureRoutes, hv, hk', hs']
  · have hv : azureValid r = false := by
      have hk' : r.accountKey.isEmpty = true := by rw [hk]; rfl
      have hs' : r.sasToken.isEmpty = true := by rw [hs]; rfl
      simp [azureValid, hk', hs']
    constructor
    · simp [azureRoutes, hv]
    · simp [azureRoutes, hv, azureHttp]

/-- Witness for C2 at concrete Azure requests: one with an account key (and
a stray SAS token, showing precedence), one with only a SAS token, one with
neither. -/
theorem c2_azure_sas_issuance_witness :
    (azureRoutes 1000 ⟨"f.pdf", "application/pdf", "acct", "cont", "KEY", "tok"⟩ true =
      (.newSas "cont" "f.pdf" "w" 1000 (1000 + 3600 * 1000), 1)) ∧
    (azureRoutes 1000 ⟨"f.pdf", "application/pdf", "acct", "cont", "", "tok"⟩ true =
      (.reusedToken "acct" "cont" "f.pdf" "tok", 0)) ∧
    (azureRoutes 1000 ⟨"f.pdf", "application/pdf", "acct", "cont", "", ""⟩ true =
      (.validationError, 0)) :=
  ⟨(c2_azure_sas_issuance 1000 ⟨"f.pdf", "application/pdf", "acct", "cont", "KEY", "tok"⟩
      true (by decide) (by decide) (by decide) (by decide) (by decide)).1
      (by decide) rfl,
   (c2_azure_sas_issuance 1000 ⟨"f.pdf", "application/pdf", "acct", "cont", "", "tok"⟩
      true (by decide) (by decide) (by decide) (by decide) (by decide)).2.1
      rfl (by decide),
   ((c2_azure_sas_issuance 1000 ⟨"f.pdf", "application/pdf", "acct", "cont", "", ""⟩
      true (by decide) (by decide) (by decide) (by decide) (by decide)).2.2
      rfl rfl).1⟩

/-- C3: across the three broker endpoints — a request with a missing
required field is rejected with the 400 `VALIDATION_ERROR` envelope and
zero signing attempts; a GCP request whose service-account key JSON fails
to parse is rejected with the 400 `INVALID_CREDENTIALS` envelope and zero
signing attempts; a downstream provider failure yields the provider's
generic 500 error code after exactly one signing attempt; and no call ever
makes more than one signing attempt (no retry). -/
theorem c3_broker_error_taxonomy :
    (∀ (r : S3Req) (sdkOk : Bool),
      (r.fileName = "" ∨ r.fileType = "" ∨ r.bucket = "" ∨ r.region = "" ∨
          r.accessKeyId = "" ∨ r.secretAccessKey = "" →
        s3Routes r sdkOk = (.validationError, 0) ∧
        s3Http (s3Routes r sdkOk).1 = (400, "VALIDATION_ERROR")) ∧
      (s3Valid r = true → sdkOk = false →
        s3Routes r sdkOk = (.s3Error, 1) ∧
        s3Http (s3Routes r sdkOk).1 = (500, "S3_ERROR")) ∧
      (s3Routes r sdkOk).2 ≤ 1) ∧
    (∀ (now : Nat) (r : GcpReq) (keyParses sdkOk : Bool),
      (r.fileName = "" ∨ r.fileType = "" ∨ r.bucket = "" ∨
          r.projectId = "" ∨ r.keyFile = "" →
        gcpRoutes now r keyParses sdkOk = (.validationError, 0) ∧
        gcpHttp (gcpRoutes now r keyParses sdkOk).1 = (400, "VALIDATION_ERROR")) ∧
      (gcpValid r = true → keyParses = false →
        gcpRoutes now r keyParses sdkOk = (.invalidCredentials, 0) ∧
        gcpHttp (gcpRoutes now r keyParses sdkOk).1 = (400, "INVALID_CREDENTIALS")) ∧
      (gcpValid r = true → keyParses = true → sdkOk = false →
        gcpRoutes now r keyParses sdkOk = (.gcpError, 1) ∧
        gcpHttp (gcpRoutes now r keyParses sdkOk).1 = (500, "GCP_ERROR")) ∧
      (gcpRoutes now r keyParses sdkOk).2 ≤ 1) ∧
    (∀ (now : Nat) (r : AzureReq) (sdkOk : Bool),
      (r.fileName = "" ∨ r.fileType = "" ∨ r.accountName = "" ∨
          r.containerName = "" →
        azureRoutes now r sdkOk = (.validationError, 0) ∧
        azureHttp (azureRoutes now r sdkOk).1 = (400, "VALIDATION_ERROR")) ∧
      (azureValid r = true → r.accountKey ≠ "" → sdkOk = false →
        azureRoutes now r sdkOk = (.azureError, 1) ∧
        azureHttp (azureRoutes now r sdkOk).1 = (500, "AZURE_ERROR")) ∧
      (azureRoutes now r sdkOk).2 ≤ 1) := by
  refine ⟨fun r sdkOk => ⟨fun hmiss => ?_, fun hv hsdk => ?_, ?_⟩,
    fun now r keyParses sdkOk => ⟨fun hmiss => ?_, fun hv hkp => ?_,
      fun hv hkp hsdk => ?_, ?_⟩,
    fun now r sdkOk => ⟨fun hmiss => ?_, fun hv hk hsdk => ?_, ?_⟩⟩
  · have hv : s3Valid r = false := by
      rcases hmiss with h | h | h | h | h | h <;> simp [s3Valid, h, empty_isEmpty]
    simp [s3Routes, hv, s3Http]
  · simp [s3Routes, hv, hsdk, s3Http]
  · unfold s3Routes
    split_ifs <;> simp
  · have hv : gcpValid r = false := by
      rcases hmiss with h | h | h | h | h <;> simp [gcpValid, h, empty_isEmpty]
    simp [gcpRoutes, hv, gcpHttp]
  · simp [gcpRoutes, hv, hkp, gcpHttp]
  · simp [gcpRoutes, hv, hkp, hsdk, gcpHttp]
  · unfold gcpRoutes
    split_ifs <;> simp
  · have hv : azureValid r = false := by
      rcases hmiss with h | h | h | h <;> simp [azureValid, h, empty_isEmpty]
    simp [azureRoutes, hv, azureHttp]
  · have hk' := isEmpty_false_of_ne hk
    simp [azureRoutes, hv, hk', hsdk, azureHttp]
  · unfold azureRoutes
    split_ifs <;> simp

/-- Witness for C3: an S3 request with a missing bucket is rejected with
`VALIDATION_ERROR` and no signing attempt; a shape-valid GCP request whose
key fails to parse yields `INVALID_CREDENTIALS`; a shape-valid S3 request
with a downstream failure yields `S3_ERROR` after one attempt. -/
theorem c3_broker_error_taxonomy_witness :
    (s3Routes ⟨"f.pdf", "application/pdf", "", "us-east-1", "AKIA", "sec", "", ""⟩ true =
      (.validationError, 0)) ∧
    (gcpRoutes 0 ⟨"f.pdf", "application/pdf", "b", "p", "not json"⟩ false true =
      (.invalidCredentials, 0)) ∧
    (s3Routes ⟨"f.pdf", "application/pdf", "b", "us-east-1", "AKIA", "sec", "", ""⟩ false =
      (.s3Error, 1)) :=
  ⟨((c3_broker_error_taxonomy.1
      ⟨"f.pdf", "application/pdf", "", "us-east-1", "AKIA", "sec", "", ""⟩ true).1
      (Or.inr (Or.inr (Or.inl rfl)))).1,
   ((c3_broker_error_taxonomy.2.1 0
      ⟨"f.pdf", "application/pdf", "b", "p", "not json"⟩ false true).2.1
      (by decide) rfl).1,
   ((c3_broker_error_taxonomy.1
      ⟨"f.pdf", "application/pdf", "b", "us-east-1", "AKIA", "sec", "", ""⟩ false).2.1
      (by decide) rfl).1⟩

/-! ## Lemmas about the update events and the batch trace -/

lemma updItem_id (it : Item) (u : Upd) : (updItem it u).id = it.id := by
  unfold updItem
  split
  · cases u <;> rfl
  · rfl

lemma updItem_of_ne {it : Item} {u : Upd} (h : u.targetId ≠ it.id) :
    updItem it u = it := by
  unfold updItem
  split
  · exact absurd (by assumption) h
  · rfl

lemma updItem_start {it : Item} {n : Nat} (h : n = it.id) :
    updItem it (.start n) = { it with status := .uploading, progress := 0 } := by
  subst h; simp [updItem, Upd.targetId]

lemma updItem_fail {it : Item} {n : Nat} {m : String} (h : n = it.id) :
    updItem it (.fail n m) =
      { it with status := .error, progress := 0, errorMsg := some m } := by
  subst h; simp [updItem, Upd.targetId]

lemma updItem_succeed {it : Item} {n : Nat} (h : n = it.id) :
    updItem it (.succeed n) =
      { it with status := .success, progress := 100 } := by
  subst h; simp [updItem, Upd.targetId]

lemma updItem_prog_fields (it : Item) (n p : Nat) :
    (updItem it (.prog n p)).id = it.id ∧
    (updItem it (.prog n p)).status = it.status ∧
    (updItem it (.prog n p)).errorMsg = it.errorMsg := by
  unfold updItem
  split
  · exact ⟨rfl, rfl, rfl⟩
  · exact ⟨rfl, rfl, rfl⟩

lemma applyUpd_append (l₁ l₂ : List Item) (u : Upd) :
    applyUpd (l₁ ++ l₂) u = applyUpd l₁ u ++ applyUpd l₂ u :=
  List.map_append _ _ _

lemma applyUpd_of_fresh {l : List Item} {u : Upd}
    (h : ∀ it ∈ l, u.targetId ≠ it.id) : applyUpd l u = l := by
  unfold applyUpd
  calc l.map (fun it => updItem it u)
      = l.map id := List.map_congr_left fun it hit => updItem_of_ne (h it hit)
    _ = l := List.map_id l

lemma perItemUpds_target {n : Nat} {env : ItemEnv} {u : Upd}
    (h : u ∈ perItemUpds n env) : u.targetId = n := by
  unfold perItemUpds at h
  rcases List.mem_cons.mp h with h | h
  · subst h; rfl
  · split at h
    · simp only [List.mem_singleton] at h; subst h; rfl
    · split at h
      · simp only [List.mem_singleton] at h; subst h; rfl
      · rcases List.mem_append.mp h with h | h
        · obtain ⟨p, -, hp⟩ := List.mem_map.mp h
          subst hp; rfl
        · simp only [List.mem_singleton] at h
          subst h
          cases env.uploadResult with
          | none => rfl
          | some s =>
            dsimp only
            split <;> rfl

lemma scanl_head {α β : Type} (f : β → α → β) (b : β) (l : List α) :
    List.scanl f b l = b :: (List.scanl f b l).tail := by
  cases l <;> simp [List.scanl_nil, List.scanl_cons]

lemma scanl_append {α β : Type} (f : β → α → β) (b : β) (l₁ l₂ : List α) :
    List.scanl f b (l₁ ++ l₂) =
      List.scanl f b l₁ ++ (List.scanl f (List.foldl f b l₁) l₂).tail := by
  induction l₁ generalizing b with
  | nil =>
    simp only [List.nil_append, List.scanl_nil, List.foldl_nil]
    exact scanl_head f b l₂
  | cons a l ih =>
    simp only [List.cons_append, List.scanl_cons, List.foldl_cons,
      List.singleton_append]
    rw [ih]
    simp [List.append_assoc]

/-- An event whose target id occurs only at `x` changes only `x`. -/
lemma applyUpd_splice (pre post : List Item) (x : Item) (u : Upd)
    (hu : u.targetId = x.id)
    (hpre : ∀ it ∈ pre, it.id ≠ x.id)
    (hpost : ∀ it ∈ post, it.id ≠ x.id) :
    applyUpd (pre ++ x :: post) u = pre ++ updItem x u :: post := by
  unfold applyUpd
  rw [List.map_append, List.map_cons]
  congr 1
  · calc pre.map (fun it => updItem it u)
        = pre.map id := List.map_congr_left fun it hit =>
            updItem_of_ne (by rw [hu]; exact (hpre it hit).symm)
      _ = pre := List.map_id pre
  · congr 1
    calc post.map (fun it => updItem it u)
        = post.map id := List.map_congr_left fun it hit =>
            updItem_of_ne (by rw [hu]; exact (hpost it hit).symm)
      _ = post := List.map_id post

/-- When every event targets `x`'s id and `x` is the only item with that id,
the shared-state trace is the per-item trace of `x` spliced into the
unchanged context. -/
lemma scanl_applyUpd_split :
    ∀ (us : List Upd) (pre post : List Item) (x : Item),
      (∀ u ∈ us, u.targetId = x.id) →
      (∀ it ∈ pre, it.id ≠ x.id) →
      (∀ it ∈ post, it.id ≠ x.id) →
      List.scanl applyUpd (pre ++ x :: post) us =
        (List.scanl updItem x us).map (fun c => pre ++ c :: post) := by
  intro us
  induction us with
  | nil => intro pre post x _ _ _; simp [List.scanl_nil]
  | cons u us ih =>
    intro pre post x htgt hpre hpost
    have hu : u.targetId = x.id := htgt u (List.mem_cons_self u us)
    simp only [List.scanl_cons, List.singleton_append, List.map_cons]
    rw [applyUpd_splice pre post x u hu hpre hpost]
    congr 1
    exact ih pre post (updItem x u)
      (fun v hv => by rw [updItem_id]; exact htgt v (List.mem_cons_of_mem u hv))
      (fun it hit => by rw [updItem_id]; exact hpre it hit)
      (fun it hit => by rw [updItem_id]; exact hpost it hit)

lemma foldl_applyUpd_split :
    ∀ (us : List Upd) (pre post : List Item) (x : Item),
      (∀ u ∈ us, u.targetId = x.id) →
      (∀ it ∈ pre, it.id ≠ x.id) →
      (∀ it ∈ post, it.id ≠ x.id) →
      List.foldl applyUpd (pre ++ x :: post) us =
        pre ++ (List.foldl updItem x us) :: post := by
  intro us
  induction us with
  | nil => intro pre post x _ _ _; simp [List.foldl_nil]
  | cons u us ih =>
    intro pre post x htgt hpre hpost
    have hu : u.targetId = x.id := htgt u (List.mem_cons_self u us)
    simp only [List.foldl_cons]
    rw [applyUpd_splice pre post x u hu hpre hpost]
    exact ih pre post (updItem x u)
      (fun v hv => by rw [updItem_id]; exact htgt v (List.mem_cons_of_mem u hv))
      (fun it hit => by rw [updItem_id]; exact hpre it hit)
      (fun it hit => by rw [updItem_id]; exact hpost it hit)

lemma foldl_prog_fields (n : Nat) (ps : List Nat) (s : Item) :
    (List.foldl updItem s (ps.map (Upd.prog n))).id = s.id ∧
    (List.foldl updItem s (ps.map (Upd.prog n))).status = s.status := by
  induction ps generalizing s with
  | nil => exact ⟨rfl, rfl⟩
  | cons p ps ih =>
    simp only [List.map_cons, List.foldl_cons]
    obtain ⟨h1, h2⟩ := ih (updItem s (.prog n p))
    obtain ⟨g1, g2, -⟩ := updItem_prog_fields s n p
    exact ⟨h1.trans g1, h2.trans g2⟩

lemma scanl_prog_fields (n : Nat) (ps : List Nat) (s : Item) :
    ∀ t ∈ List.scanl updItem s (ps.map (Upd.prog n)),
      t.id = s.id ∧ t.status = s.status := by
  induction ps generalizing s with
  | nil =>
    intro t ht
    simp only [List.map_nil, List.scanl_nil, List.mem_singleton] at ht
    exact ⟨ht ▸ rfl, ht ▸ rfl⟩
  | cons p ps ih =>
    intro t ht
    simp only [List.map_cons, List.scanl_cons, List.singleton_append,
      List.mem_cons] at ht
    rcases ht with ht | ht
    · exact ⟨ht ▸ rfl, ht ▸ rfl⟩
    · obtain ⟨h1, h2⟩ := ih (updItem s (.prog n p)) t ht
      obtain ⟨g1, g2, -⟩ := updItem_prog_fields s n p
      exact ⟨h1.trans g1, h2.trans g2⟩

/-- The final update of a successful fetch-and-broker run. -/
def lastUpd (n : Nat) (res : Option Nat) : Upd :=
  match res with
  | some s => if s = 200 || s = 201 then Upd.succeed n else Upd.fail n "Upload failed"
  | none => Upd.fail n "Network error"

lemma perItemUpds_eq (n : Nat) (env : ItemEnv) :
    perItemUpds n env =
      Upd.start n ::
        (if env.fetchOk = false then [Upd.fail n "Fetch failed"]
         else if env.brokerOk = false then [Upd.fail n "Failed to get signed URL"]
         else (env.progressEvents.map (Upd.prog n)) ++ [lastUpd n env.uploadResult]) := by
  unfold perItemUpds lastUpd
  rfl

/-- Everything the batch-level proofs need about the outcome of one item's
`processUpload`: the id is preserved, the final status is terminal, an
`error` outcome has progress 0, and a `success` outcome has progress 100. -/
lemma finalItem_spec (it : Item) (env : ItemEnv) :
    (finalItem it env).id = it.id ∧
    isTerminal (finalItem it env) ∧
    ((finalItem it env).status = .error → (finalItem it env).progress = 0) ∧
    ((finalItem it env).status = .success → (finalItem it env).progress = 100) := by
  unfold finalItem
  rw [perItemUpds_eq]
  simp only [List.foldl_cons]
  rw [updItem_start rfl]
  set s1 : Item := { it with status := .uploading, progress := 0 } with hs1
  have hs1id : s1.id = it.id := rfl
  by_cases hf : env.fetchOk = false
  · rw [if_pos hf]
    rw [show List.foldl updItem s1 [Upd.fail it.id "Fetch failed"] =
      updItem s1 (Upd.fail it.id "Fetch failed") from rfl]
    rw [updItem_fail hs1id.symm]
    exact ⟨rfl, Or.inr rfl, fun _ => rfl, fun h => by simp at h⟩
  · by_cases hb : env.brokerOk = false
    · rw [if_neg hf, if_pos hb]
      rw [show List.foldl updItem s1 [Upd.fail it.id "Failed to get signed URL"] =
        updItem s1 (Upd.fail it.id "Failed to get signed URL") from rfl]
      rw [updItem_fail hs1id.symm]
      exact ⟨rfl, Or.inr rfl, fun _ => rfl, fun h => by simp at h⟩
    · rw [if_neg hf, if_neg hb]
      rw [List.foldl_append]
      set s2 := List.foldl updItem s1 (env.progressEvents.map (Upd.prog it.id)) with hs2
      obtain ⟨h2id, -⟩ := foldl_prog_fields it.id env.progressEvents s1
      have hs2id : s2.id = it.id := h2id.trans hs1id
      rw [show List.foldl updItem s2 [lastUpd it.id env.uploadResult] =
        updItem s2 (lastUpd it.id env.uploadResult) from rfl]
      unfold lastUpd
      cases env.uploadResult with
      | none =>
        dsimp only
        rw [updItem_fail hs2id.symm]
        exact ⟨hs2id, Or.inr rfl, fun _ => rfl, fun h => by simp at h⟩
      | some s =>
        dsimp only
        by_cases h200 : (s = 200 || s = 201) = true
        · rw [if_pos h200, updItem_succeed hs2id.symm]
          exact ⟨hs2id, Or.inl rfl, fun h => by simp at h, fun _ => rfl⟩
        · rw [if_neg h200, updItem_fail hs2id.symm]
          exact ⟨hs2id, Or.inr rfl, fun _ => rfl, fun h => by simp at h⟩

/-- Invariant along one item's own trace: the id never changes and an
`error` state always carries progress 0. -/
lemma itemStates_inv (it : Item) (env : ItemEnv) (hp : it.status = .pending) :
    ∀ t ∈ List.scanl updItem it (perItemUpds it.id env),
      t.id = it.id ∧ (t.status = .error → t.progress = 0) := by
  rw [perItemUpds_eq]
  simp only [List.scanl_cons, List.singleton_append]
  intro t ht
  rcases List.mem_cons.mp ht with ht | ht
  · exact ⟨ht ▸ rfl, fun h => absurd (hp ▸ ht ▸ h) (by simp)⟩
  · rw [updItem_start rfl] at ht
    set s1 : Item := { it with status := .uploading, progress := 0 } with hs1
    have hs1id : s1.id = it.id := rfl
    by_cases hf : env.fetchOk = false
    · rw [if_pos hf] at ht
      simp only [List.scanl_cons, List.scanl_nil, List.singleton_append,
        List.mem_cons, List.mem_singleton, List.not_mem_nil, or_false] at ht
      rcases ht with ht | ht
      · exact ⟨ht ▸ rfl, fun h => by rw [ht] at h; simp [hs1] at h⟩
      · rw [updItem_fail hs1id.symm] at ht
        exact ⟨ht ▸ rfl, fun _ => by rw [ht]⟩
    · by_cases hb : env.brokerOk = false
      · rw [if_neg hf, if_pos hb] at ht
        simp only [List.scanl_cons, List.scanl_nil, List.singleton_append,
          List.mem_cons, List.mem_singleton, List.not_mem_nil, or_false] at ht
        rcases ht with ht | ht
        · exact ⟨ht ▸ rfl, fun h => by rw [ht] at h; simp [hs1] at h⟩
        · rw [updItem_fail hs1id.symm] at ht
          exact ⟨ht ▸ rfl, fun _ => by rw [ht]⟩
      · rw [if_neg hf, if_neg hb] at ht
        rw [scanl_append] at ht
        rcases List.mem_append.mp ht with ht | ht
        · obtain ⟨h1, h2⟩ := scanl_prog_fields it.id env.progressEvents s1 t ht
          refine ⟨h1.trans hs1id, fun h => ?_⟩
          rw [h2] at h
          simp [hs1] at h
        · have ht' : t ∈ List.scanl updItem
              (List.foldl updItem s1 (env.progressEvents.map (Upd.prog it.id)))
              [lastUpd it.id env.uploadResult] :=
            List.mem_of_mem_tail ht
          set s2 := List.foldl updItem s1 (env.progressEvents.map (Upd.prog it.id)) with hs2
          obtain ⟨h2id, h2st⟩ := foldl_prog_fields it.id env.progressEvents s1
          have hs2id : s2.id = it.id := h2id.trans hs1id
          simp only [List.scanl_cons, List.scanl_nil, List.singleton_append,
            List.mem_cons, List.mem_singleton, List.not_mem_nil, or_false] at ht'
          rcases ht' with ht' | ht'
          · refine ⟨ht' ▸ hs2id, fun h => ?_⟩
            rw [ht', h2st] at h
            simp [hs1] at h
          · subst ht'
            unfold lastUpd
            cases env.uploadResult with
            | none =>
              dsimp only
              rw [updItem_fail hs2id.symm]
              exact ⟨hs2id, fun _ => rfl⟩
            | some s =>
              dsimp only
              by_cases h200 : (s = 200 || s = 201) = true
              · rw [if_pos h200, updItem_succeed hs2id.symm]
                exact ⟨hs2id, fun h => by simp at h⟩
              · rw [if_neg h200, updItem_fail hs2id.symm]
                exact ⟨hs2id, fun _ => rfl⟩

/-- Shape of every intermediate shared state of a batch run: a settled
prefix (terminal, with errored items at progress 0), one distinguished item
(the one currently being processed, in an arbitrary point of its own
trace), and an untouched pending suffix. -/
def StateOk (t : List Item) : Prop :=
  t = [] ∨ ∃ F c P, t = F ++ c :: P ∧
    (∀ x ∈ F, isTerminal x ∧ (x.status = .error → x.progress = 0)) ∧
    (c.status = .error → c.progress = 0) ∧
    (∀ x ∈ P, x.status = .pending ∧ x.progress = 0)

lemma batchUpds_nil_envs (rest : List Item) : batchUpds rest [] = [] := by
  simp [batchUpds]

lemma batchUpds_nil_items (envs : List ItemEnv) : batchUpds [] envs = [] := by
  simp [batchUpds]

lemma batchUpds_cons (r : Item) (rest : List Item) (e : ItemEnv)
    (envs : List ItemEnv) :
    batchUpds (r :: rest) (e :: envs) =
      perItemUpds r.id e ++ batchUpds rest envs := by
  simp [batchUpds]

lemma nodup_head_fresh {pre rest' : List Item} {r : Item}
    (h : ((pre ++ r :: rest').map Item.id).Nodup) :
    (∀ it ∈ pre, it.id ≠ r.id) ∧ (∀ it ∈ rest', it.id ≠ r.id) := by
  rw [List.map_append, List.nodup_append] at h
  obtain ⟨-, h2, hdisj⟩ := h
  rw [List.map_cons, List.nodup_cons] at h2
  constructor
  · intro it hit heq
    exact hdisj (List.mem_map_of_mem Item.id hit)
      (heq ▸ List.mem_cons_self _ _)
  · intro it hit heq
    exact h2.1 (heq ▸ List.mem_map_of_mem Item.id hit)

/-- The workhorse: every state in the trace of the sequential loop has the
settled-prefix / current-item / pending-suffix shape. -/
lemma batch_states_ok :
    ∀ (rest : List Item) (envs : List ItemEnv) (pre : List Item),
      (∀ x ∈ pre, isTerminal x ∧ (x.status = .error → x.progress = 0)) →
      (∀ x ∈ rest, x.status = .pending ∧ x.progress = 0) →
      ((pre ++ rest).map Item.id).Nodup →
      ∀ t ∈ List.scanl applyUpd (pre ++ rest) (batchUpds rest envs),
        StateOk t := by
  intro rest
  induction rest with
  | nil =>
    intro envs pre hpre _ _ t ht
    rw [batchUpds_nil_items, List.scanl_nil] at ht
    simp only [List.mem_singleton, List.append_nil] at ht
    subst ht
    by_cases hpre0 : t = []
    · exact Or.inl hpre0
    · refine Or.inr ⟨t.dropLast, t.getLast hpre0, [],
        (List.dropLast_append_getLast hpre0).symm, ?_, ?_, by simp⟩
      · exact fun x hx => hpre x (List.mem_of_mem_dropLast hx)
      · exact (hpre _ (List.getLast_mem hpre0)).2
  | cons r rest' ih =>
    intro envs pre hpre hrest hnodup t ht
    obtain ⟨hfr_pre, hfr_rest⟩ := nodup_head_fresh hnodup
    cases envs with
    | nil =>
      rw [batchUpds_nil_envs, List.scanl_nil] at ht
      simp only [List.mem_singleton] at ht
      subst ht
      refine Or.inr ⟨pre, r, rest', rfl, hpre, ?_, ?_⟩
      · intro h
        rw [(hrest r (List.mem_cons_self r rest')).1] at h
        exact absurd h (by simp)
      · exact fun x hx => hrest x (List.mem_cons_of_mem r hx)
    | cons e envs' =>
      rw [batchUpds_cons, scanl_append] at ht
      rcases List.mem_append.mp ht with ht | ht
      · rw [scanl_applyUpd_split (perItemUpds r.id e) pre rest' r
            (fun u hu => perItemUpds_target hu) hfr_pre hfr_rest] at ht
        obtain ⟨c, hc, hct⟩ := List.mem_map.mp ht
        refine Or.inr ⟨pre, c, rest', hct.symm, hpre, ?_,
          fun x hx => hrest x (List.mem_cons_of_mem r hx)⟩
        exact (itemStates_inv r e
          (hrest r (List.mem_cons_self r rest')).1 c hc).2
      · have ht' := List.mem_of_mem_tail ht
        rw [foldl_applyUpd_split (perItemUpds r.id e) pre rest' r
            (fun u hu => perItemUpds_target hu) hfr_pre hfr_rest] at ht'
        have hfe : List.foldl updItem r (perItemUpds r.id e) = finalItem r e := rfl
        rw [hfe, show pre ++ finalItem r e :: rest' =
          (pre ++ [finalItem r e]) ++ rest' by simp] at ht'
        refine ih envs' (pre ++ [finalItem r e]) ?_ ?_ ?_ t ht'
        · intro x hx
          rcases List.mem_append.mp hx with hx | hx
          · exact hpre x hx
          · rw [List.mem_singleton.mp hx]
            obtain ⟨-, h2, h3, -⟩ := finalItem_spec r e
            exact ⟨h2, h3⟩
        · exact fun x hx => hrest x (List.mem_cons_of_mem r hx)
        · have hids : ((pre ++ [finalItem r e]) ++ rest').map Item.id =
              (pre ++ r :: rest').map Item.id := by
            simp [List.map_append, (finalItem_spec r e).1]
          rw [hids]
          exact hnodup

lemma stateOk_error_progress {t : List Item} (h : StateOk t) :
    ∀ x ∈ t, x.status = .error → x.progress = 0 := by
  rcases h with rfl | ⟨F, c, P, rfl, hF, hc, hP⟩
  · simp
  · intro x hx he
    rcases List.mem_append.mp hx with hx | hx
    · exact (hF x hx).2 he
    · rcases List.mem_cons.mp hx with rfl | hx
      · exact hc he
      · rw [(hP x hx).1] at he
        exact absurd he (by simp)

lemma stateOk_seq {t : List Item} (h : StateOk t) :
    ∀ i j (hi : i < t.length) (hj : j < t.length), i < j →
      (t.get ⟨j, hj⟩).status ≠ .pending → isTerminal (t.get ⟨i, hi⟩) := by
  rcases h with rfl | ⟨F, c, P, rfl, hF, -, hP⟩
  · intro i j hi
    simp at hi
  · intro i j hi hj hij hjp
    simp only [List.get_eq_getElem] at hjp ⊢
    by_cases hjF : j < F.length + 1
    · have hiF : i < F.length := by omega
      rw [List.getElem_append_left hiF]
      exact (hF _ (List.getElem_mem hiF)).1
    · exfalso
      apply hjp
      have h1 : F.length ≤ j := by omega
      rw [List.getElem_append_right h1]
      have hjlen : j < F.length + (P.length + 1) := by
        rw [List.length_append, List.length_cons] at hj
        exact hj
      obtain ⟨m, hm⟩ : ∃ m, j - F.length = m + 1 := ⟨j - F.length - 1, by omega⟩
      have h3 : m < P.length := by omega
      have h4 : j - F.length < (c :: P).length := by
        simp only [List.length_cons]
        omega
      have hme : (c :: P)[j - F.length] ∈ P := by
        simp only [hm, List.getElem_cons_succ]
        exact List.getElem_mem h3
      exact (hP _ hme).1

lemma mkItemsFrom_pending (k : Nat) (urls : List String) :
    ∀ x ∈ mkItemsFrom k urls, x.status = .pending ∧ x.progress = 0 := by
  induction urls generalizing k with
  | nil => simp [mkItemsFrom]
  | cons u us ih =>
    intro x hx
    rcases List.mem_cons.mp hx with rfl | hx
    · exact ⟨rfl, rfl⟩
    · exact ih (k + 1) x hx

lemma mkItemsFrom_id_ge (k : Nat) (urls : List String) :
    ∀ x ∈ mkItemsFrom k urls, k ≤ x.id := by
  induction urls generalizing k with
  | nil => simp [mkItemsFrom]
  | cons u us ih =>
    intro x hx
    rcases List.mem_cons.mp hx with rfl | hx
    · exact le_refl k
    · exact le_trans (Nat.le_succ k) (ih (k + 1) x hx)

lemma mkItemsFrom_nodup (k : Nat) (urls : List String) :
    ((mkItemsFrom k urls).map Item.id).Nodup := by
  induction urls generalizing k with
  | nil => simp [mkItemsFrom]
  | cons u us ih =>
    simp only [mkItemsFrom, List.map_cons, List.nodup_cons]
    refine ⟨?_, ih (k + 1)⟩
    intro hmem
    obtain ⟨x, hx, hid⟩ := List.mem_map.mp hmem
    have := mkItemsFrom_id_ge (k + 1) us x hx
    omega

lemma batchStates_stateOk (urls : List String) (envs : List ItemEnv) :
    ∀ t ∈ batchStates (mkItems urls) envs, StateOk t := by
  intro t ht
  exact batch_states_ok (mkItems urls) envs [] (by simp)
    (mkItemsFrom_pending 0 urls) (mkItemsFrom_nodup 0 urls) t ht

/-- C1: in every intermediate shared state of a batch run (the bulk and the
file intake both drive `mkItems` output through the same sequential loop),
whenever a later item has left `pending`, every earlier item has already
reached a terminal state (`success` or `error`): items start and settle in
input order. -/
theorem c1_sequential_ordering (urls : List String) (envs : List ItemEnv) :
    ∀ t ∈ batchStates (mkItems urls) envs,
      ∀ i j (hi : i < t.length) (hj : j < t.length), i < j →
        (t.get ⟨j, hj⟩).status ≠ .pending → isTerminal (t.get ⟨i, hi⟩) := by
  intro t ht
  exact stateOk_seq (batchStates_stateOk urls envs t ht)

/-- Witness for C1: in the two-item batch where item 0 succeeds (status 200)
and item 1 fails (status 500), the state in which item 1 has just started
uploading has item 0 already terminal. -/
theorem c1_sequential_ordering_witness :
    isTerminal (([⟨0, "u1", .success, 100, none, none⟩,
        ⟨1, "u2", .uploading, 0, none, none⟩] : List Item).get ⟨0, by decide⟩) :=
  c1_sequential_ordering ["u1", "u2"]
    [⟨true, true, [], some 200⟩, ⟨true, true, [], some 500⟩]
    [⟨0, "u1", .success, 100, none, none⟩, ⟨1, "u2", .uploading, 0, none, none⟩]
    (by decide) 0 1 (by decide) (by decide) (by decide) (by decide)

lemma sum_filter_error (l : List Item)
    (h : ∀ x ∈ l, x.status = .error → x.progress = 0) :
    (l.map (fun x => x.progress)).sum =
      ((l.filter (fun x => !decide (x.status = .error))).map
        (fun x => x.progress)).sum := by
  induction l with
  | nil => rfl
  | cons a l ih =>
    have hrest := ih fun x hx => h x (List.mem_cons_of_mem a hx)
    by_cases ha : a.status = .error
    · have hz : a.progress = 0 := h a (List.mem_cons_self a l) ha
      simp [List.filter_cons, ha, hz, hrest]
    · simp [List.filter_cons, ha, hrest]

/-- C10 (implicit): along every intermediate shared state of a batch run,
an item whose status is `error` has progress exactly 0 (the error
transition resets progress), and consequently errored items contribute 0 to
the sum that defines the aggregate progress mean. -/
theorem c10_error_resets_progress (urls : List String) (envs : List ItemEnv) :
    ∀ t ∈ batchStates (mkItems urls) envs,
      (∀ x ∈ t, x.status = .error → x.progress = 0) ∧
      (t.map (fun x => x.progress)).sum =
        ((t.filter (fun x => !decide (x.status = .error))).map
          (fun x => x.progress)).sum := by
  intro t ht
  have hinv := stateOk_error_progress (batchStates_stateOk urls envs t ht)
  exact ⟨hinv, sum_filter_error t hinv⟩

/-- Witness for C10: in the final state of the two-item batch where item 1
failed, the errored item has progress 0 and drops out of the progress sum
without changing it. -/
theorem c10_error_resets_progress_witness :
    Item.progress ⟨1, "u2", .error, 0, some "Upload failed", none⟩ = 0 ∧
    (([⟨0, "u1", .success, 100, none, none⟩,
        ⟨1, "u2", .error, 0, some "Upload failed", none⟩] : List Item).map
      (fun x => x.progress)).sum =
      ((([⟨0, "u1", .success, 100, none, none⟩,
          ⟨1, "u2", .error, 0, some "Upload failed", none⟩] : List Item).filter
        (fun x => !decide (x.status = .error))).map
        (fun x => x.progress)).sum :=
  have h := c10_error_resets_progress ["u1", "u2"]
    [⟨true, true, [], some 200⟩, ⟨true, true, [], some 500⟩]
    [⟨0, "u1", .success, 100, none, none⟩,
     ⟨1, "u2", .error, 0, some "Upload failed", none⟩] (by decide)
  ⟨h.1 ⟨1, "u2", .error, 0, some "Upload failed", none⟩ (by decide) rfl, h.2⟩

lemma batch_final_eq :
    ∀ (rest : List Item) (envs : List ItemEnv) (pre : List Item),
      envs.length = rest.length →
      ((pre ++ rest).map Item.id).Nodup →
      List.foldl applyUpd (pre ++ rest) (batchUpds rest envs) =
        pre ++ List.zipWith finalItem rest envs := by
  intro rest
  induction rest with
  | nil =>
    intro envs pre _ _
    rw [batchUpds_nil_items, List.foldl_nil]
    simp
  | cons r rest' ih =>
    intro envs pre hlen hnodup
    obtain ⟨hfr_pre, hfr_rest⟩ := nodup_head_fresh hnodup
    cases envs with
    | nil => simp at hlen
    | cons e envs' =>
      rw [batchUpds_cons, List.foldl_append]
      rw [foldl_applyUpd_split (perItemUpds r.id e) pre rest' r
        (fun u hu => perItemUpds_target hu) hfr_pre hfr_rest]
      have hfe : List.foldl updItem r (perItemUpds r.id e) = finalItem r e := rfl
      rw [hfe, show pre ++ finalItem r e :: rest' =
        (pre ++ [finalItem r e]) ++ rest' by simp]
      have hids : ((pre ++ [finalItem r e]) ++ rest').map Item.id =
          (pre ++ r :: rest').map Item.id := by
        simp [List.map_append, (finalItem_spec r e).1]
      rw [ih envs' (pre ++ [finalItem r e])
        (by simpa using hlen) (hids ▸ hnodup)]
      simp [List.zipWith_cons_cons]

lemma zipWith_finalItem_terminal :
    ∀ (its : List Item) (es : List ItemEnv),
      ∀ x ∈ List.zipWith finalItem its es, isTerminal x := by
  intro its
  induction its with
  | nil =>
    intro es x hx
    simp at hx
  | cons a its ih =>
    intro es x hx
    cases es with
    | nil => simp at hx
    | cons e es =>
      rw [List.zipWith_cons_cons] at hx
      rcases List.mem_cons.mp hx with rfl | hx
      · exact (finalItem_spec a e).2.1
      · exact ih es x hx

lemma countP_start_perItemUpds (n m : Nat) (env : ItemEnv) :
    (perItemUpds m env).countP (fun u => decide (u = Upd.start n)) =
      if m = n then 1 else 0 := by
  rw [perItemUpds_eq, List.countP_cons]
  have htail :
      (if env.fetchOk = false then [Upd.fail m "Fetch failed"]
       else if env.brokerOk = false then [Upd.fail m "Failed to get signed URL"]
       else (env.progressEvents.map (Upd.prog m)) ++
         [lastUpd m env.uploadResult]).countP
        (fun u => decide (u = Upd.start n)) = 0 := by
    split
    · simp [List.countP_cons]
    · split
      · simp [List.countP_cons]
      · rw [List.countP_append]
        have h1 : (env.progressEvents.map (Upd.prog m)).countP
            (fun u => decide (u = Upd.start n)) = 0 :=
          List.countP_eq_zero.mpr (by
            intro a ha
            obtain ⟨p, -, hp⟩ := List.mem_map.mp ha
            simp [← hp])
        have h2 : [lastUpd m env.uploadResult].countP
            (fun u => decide (u = Upd.start n)) = 0 :=
          List.countP_eq_zero.mpr (by
            intro a ha
            rw [List.mem_singleton.mp ha]
            unfold lastUpd
            cases env.uploadResult with
            | none => simp
            | some s =>
              dsimp only
              split <;> simp)
        rw [h1, h2]
  rw [htail]
  by_cases hmn : m = n <;> simp [hmn]

lemma countP_start_batch_zero (n : Nat) :
    ∀ (rest : List Item) (envs : List ItemEnv),
      (∀ x ∈ rest, x.id ≠ n) →
      (batchUpds rest envs).countP (fun u => decide (u = Upd.start n)) = 0 := by
  intro rest
  induction rest with
  | nil =>
    intro envs _
    rw [batchUpds_nil_items]
    rfl
  | cons r rest' ih =>
    intro envs hne
    cases envs with
    | nil =>
      rw [batchUpds_nil_envs]
      rfl
    | cons e envs' =>
      rw [batchUpds_cons, List.countP_append, countP_start_perItemUpds,
        if_neg (hne r (List.mem_cons_self r rest')),
        ih envs' (fun x hx => hne x (List.mem_cons_of_mem r hx))]

lemma countP_start_batch_one (n : Nat) :
    ∀ (rest : List Item) (envs : List ItemEnv),
      envs.length = rest.length →
      (rest.map Item.id).Nodup →
      n ∈ rest.map Item.id →
      (batchUpds rest envs).countP (fun u => decide (u = Upd.start n)) = 1 := by
  intro rest
  induction rest with
  | nil =>
    intro envs _ _ h
    simp at h
  | cons r rest' ih =>
    intro envs hlen hnodup hmem
    cases envs with
    | nil => simp at hlen
    | cons e envs' =>
      rw [batchUpds_cons, List.countP_append, countP_start_perItemUpds]
      rw [List.map_cons, List.nodup_cons] at hnodup
      rw [List.map_cons] at hmem
      rcases List.mem_cons.mp hmem with heq | hmem'
      · rw [if_pos heq.symm]
        have hz : (batchUpds rest' envs').countP
            (fun u => decide (u = Upd.start n)) = 0 := by
          refine countP_start_batch_zero n rest' envs' ?_
          intro x hx hxe
          exact hnodup.1 (heq ▸ hxe ▸ List.mem_map_of_mem Item.id hx)
        rw [hz]
      · have hne : r.id ≠ n := by
          intro h
          exact hnodup.1 (h ▸ hmem')
        rw [if_neg hne, ih envs' (by simpa using hlen) hnodup.2 hmem']

/-- C6: per-item failures are isolated — the final state of a batch is the
pointwise list of per-item outcomes (each item's outcome depends only on
its own fetch/broker/upload results, so one item's failure never changes a
sibling or aborts the batch); every item of the batch ends in a terminal
state (each is still attempted); each item's `processUpload` is started
exactly once (no automatic retry); and any update event leaves every item
with a different id unchanged. -/
theorem c6_failure_isolation (urls : List String) (envs : List ItemEnv)
    (hlen : envs.length = urls.length) :
    batchFinal (mkItems urls) envs =
      List.zipWith finalItem (mkItems urls) envs ∧
    (∀ x ∈ List.zipWith finalItem (mkItems urls) envs, isTerminal x) ∧
    (∀ i ∈ (mkItems urls).map Item.id,
      (batchUpds (mkItems urls) envs).countP
        (fun u => decide (u = Upd.start i)) = 1) ∧
    (∀ (u : Upd) (it : Item), u.targetId ≠ it.id → updItem it u = it) := by
  have hlen' : envs.length = (mkItems urls).length := by
    rw [hlen]
    clear hlen
    show urls.length = (mkItemsFrom 0 urls).length
    generalize 0 = k
    induction urls generalizing k with
    | nil => rfl
    | cons u us ih =>
      simp only [mkItemsFrom, List.length_cons, Nat.add_right_cancel_iff]
      exact ih (k + 1)
  refine ⟨?_, zipWith_finalItem_terminal (mkItems urls) envs, ?_, ?_⟩
  · exact batch_final_eq (mkItems urls) envs [] hlen' (mkItemsFrom_nodup 0 urls)
  · intro i hi
    exact countP_start_batch_one i (mkItems urls) envs hlen'
      (mkItemsFrom_nodup 0 urls) hi
  · exact fun u it h => updItem_of_ne h

/-- Witness for C6 on a two-item batch in which item 0's broker call fails
and item 1 succeeds: the final state is the pointwise outcome list, item 0
errored and item 1 successful, and item 0 was started exactly once. -/
theorem c6_failure_isolation_witness :
    batchFinal (mkItems ["u1", "u2"])
        [⟨true, false, [], some 200⟩, ⟨true, true, [], some 200⟩] =
      [⟨0, "u1", .error, 0, some "Failed to get signed URL", none⟩,
       ⟨1, "u2", .success, 100, none, none⟩] ∧
    (batchUpds (mkItems ["u1", "u2"])
        [⟨true, false, [], some 200⟩, ⟨true, true, [], some 200⟩]).countP
      (fun u => decide (u = Upd.start 0)) = 1 :=
  have h := c6_failure_isolation ["u1", "u2"]
    [⟨true, false, [], some 200⟩, ⟨true, true, [], some 200⟩] rfl
  ⟨h.1.trans (by decide), h.2.2.1 0 (by decide)⟩

/-- C7: when an item's source fetch and its broker call both succeed and its
destination transfer resolves with a final HTTP status, a status in
{200, 201} makes the item `success` with progress forced to 100, and any
other status makes it `error`. -/
theorem c7_final_status_decides (it : Item) (env : ItemEnv)
    (hf : env.fetchOk = true) (hb : env.brokerOk = true) (s : Nat)
    (hres : env.uploadResult = some s) :
    ((s = 200 ∨ s = 201) →
      (finalItem it env).status = .success ∧
      (finalItem it env).progress = 100) ∧
    (¬(s = 200 ∨ s = 201) →
      (finalItem it env).status = .error ∧
      (finalItem it env).progress = 0) := by
  unfold finalItem
  rw [perItemUpds_eq]
  simp only [List.foldl_cons]
  rw [updItem_start rfl]
  set s1 : Item := { it with status := .uploading, progress := 0 } with hs1
  have hs1id : s1.id = it.id := rfl
  rw [if_neg (by simp [hf]), if_neg (by simp [hb]), List.foldl_append]
  set s2 := List.foldl updItem s1 (env.progressEvents.map (Upd.prog it.id))
    with hs2
  obtain ⟨h2id, -⟩ := foldl_prog_fields it.id env.progressEvents s1
  have hs2id : s2.id = it.id := h2id.trans hs1id
  rw [show List.foldl updItem s2 [lastUpd it.id env.uploadResult] =
    updItem s2 (lastUpd it.id env.uploadResult) from rfl]
  rw [hres]
  unfold lastUpd
  dsimp only
  constructor
  · intro h200
    rw [if_pos (by simp only [Bool.or_eq_true, decide_eq_true_eq]; exact h200)]
    rw [updItem_succeed hs2id.symm]
    exact ⟨rfl, rfl⟩
  · intro h200
    rw [if_neg (by simp only [Bool.or_eq_true, decide_eq_true_eq]; exact h200)]
    rw [updItem_fail hs2id.symm]
    exact ⟨rfl, rfl⟩

/-- Witness for C7: a transfer ending with status 201 yields `success` at
progress 100, and one ending with status 403 yields `error`. -/
theorem c7_final_status_decides_witness :
    ((finalItem ⟨0, "u", .pending, 0, none, none⟩
        ⟨true, true, [50], some 201⟩).status = .success ∧
      (finalItem ⟨0, "u", .pending, 0, none, none⟩
        ⟨true, true, [50], some 201⟩).progress = 100) ∧
    ((finalItem ⟨0, "u", .pending, 0, none, none⟩
        ⟨true, true, [50], some 403⟩).status = .error ∧
      (finalItem ⟨0, "u", .pending, 0, none, none⟩
        ⟨true, true, [50], some 403⟩).progress = 0) :=
  ⟨(c7_final_status_decides ⟨0, "u", .pending, 0, none, none⟩
      ⟨true, true, [50], some 201⟩ rfl rfl 201 rfl).1 (Or.inr rfl),
   (c7_final_status_decides ⟨0, "u", .pending, 0, none, none⟩
      ⟨true, true, [50], some 403⟩ rfl rfl 403 rfl).2 (by decide)⟩

end Direct2Url
